import Mathlib

/-!
Verification development for the linkedin-automation-engine signal pipeline.

Shallow embedding of the pipeline's pure core, translated from the JavaScript
sources:
  * `utils/stateStore.js` (idempotency ledger, execution audit trail),
  * `triggers/githubTrigger.js` (`detectSignals`),
  * `triggers/signalClassifier.js` (`classify` and friends),
  * `services/dataNormalizer.js` (`sanitizeText`),
  * `services/contentGenerator.js` (`generate` with fallback),
  * `services/linkedinPublisher.js` (publish / queue lifecycle).

Strings manipulated character-wise are modelled as `List Char`; other strings
use `String`.  JavaScript number confidences are modelled as exact rationals
(the adjustment arithmetic uses only small decimal constants).  Network calls
are modelled by passing their observable outcome as an explicit parameter;
`Date.now()` / `toISOString()` / `Math.random()` values are likewise explicit
parameters, since the source reads them from the environment.
-/

/-! ## Text sanitization (`services/dataNormalizer.js`, `sanitizeText`) -/

/-- Whitespace test matching the `\s` character class on the ASCII range
(space, tab, line feed, carriage return, vertical tab, form feed). -/
def isWS (c : Char) : Bool :=
  c = ' ' || c = '\t' || c = '\n' || c = '\r' || c = '\x0b' || c = '\x0c'

/-- Model of `text.replace(/\s+/g, ' ')`: every maximal run of whitespace is
replaced by a single space.  The boolean argument records whether the
previous character belonged to a whitespace run. -/
def collapseWSAux : Bool → List Char → List Char
  | _, [] => []
  | prevWS, c :: rest =>
    if isWS c then
      if prevWS then collapseWSAux true rest
      else ' ' :: collapseWSAux true rest
    else c :: collapseWSAux false rest

/-- Model of `s.replace(/\s+/g, ' ')`. -/
def collapseWS (l : List Char) : List Char := collapseWSAux false l

/-- Model of `s.trim()`: drop leading and trailing whitespace. -/
def trimWS (l : List Char) : List Char :=
  ((l.dropWhile isWS).reverse.dropWhile isWS).reverse

/-- `DataNormalizer.sanitizeText(text, maxLength)`:

    if (!text) return '';
    const cleaned = text.replace(/\s+/g, ' ').trim();
    if (cleaned.length > maxLength) {
      return cleaned.substring(0, maxLength - 3) + '...';
    }
    return cleaned;

`substring(0, maxLength - 3)` clamps a negative end index to `0`, which is
exactly `List.take` with truncated `Nat` subtraction. -/
def sanitizeText (text : List Char) (maxLength : Nat) : List Char :=
  if text = [] then []
  else if maxLength < (trimWS (collapseWS text)).length then
    (trimWS (collapseWS text)).take (maxLength - 3) ++ ['.', '.', '.']
  else trimWS (collapseWS text)

/-! ## Idempotency ledger (`utils/stateStore.js`) -/

/-- Value stored in `state.processed[signalId]` by `markProcessed`:
`{ timestamp: new Date().toISOString(), ...metadata }`.  The spread metadata
is kept as an opaque key/value list. -/
structure ProcEntry where
  timestamp : String
  meta : List (String × String)
deriving DecidableEq, Repr

/-- One entry of the execution audit trail:
`{ workflow, status, timestamp: ..., ...details }`. -/
structure Execution where
  workflow : String
  status : String
  timestamp : String
  details : List (String × String)
deriving DecidableEq, Repr

/-- In-memory state of the `StateStore` singleton
(`{ processed: {}, executions: [], metadata: {} }`).  JavaScript object maps
are modelled as association lists keyed by strings. -/
structure StateStore where
  processed : List (String × ProcEntry)
  executions : List Execution
  metadata : List (String × String)
deriving DecidableEq, Repr

/-- Association list lookup (JavaScript property read `obj[key]`). -/
def lookupA {α : Type} (l : List (String × α)) (k : String) : Option α :=
  (l.find? (fun p => p.1 = k)).map (fun p => p.2)

/-- Association list write (JavaScript property assignment `obj[key] = v`):
replaces the existing binding in place, otherwise appends. -/
def upsert {α : Type} (l : List (String × α)) (k : String) (v : α) :
    List (String × α) :=
  match l with
  | [] => [(k, v)]
  | (k2, v2) :: rest => if k2 = k then (k, v) :: rest else (k2, v2) :: upsert rest k v

/-- `StateStore.hasProcessed(signalId)`: `!!this.state.processed[signalId]`.
Every value ever written by `markProcessed` is an object, hence truthy, so
truthiness coincides with presence. -/
def hasProcessed (st : StateStore) (signalId : String) : Bool :=
  (lookupA st.processed signalId).isSome

/-- `StateStore.markProcessed(signalId, metadata)`; `now` is the value of
`new Date().toISOString()`.  The `save()` call only persists to disk and does
not change the in-memory state. -/
def markProcessed (st : StateStore) (signalId : String)
    (metadata : List (String × String)) (now : String) : StateStore :=
  { st with processed := upsert st.processed signalId { timestamp := now, meta := metadata } }

/-- JavaScript `array.slice(-n)`: the last `n` elements (the whole array if it
is shorter). -/
def lastN {α : Type} (n : Nat) (l : List α) : List α := l.drop (l.length - n)

/-- The execution record built by `recordExecution`. -/
def execRecord (workflow status : String) (details : List (String × String))
    (now : String) : Execution :=
  { workflow := workflow, status := status, timestamp := now, details := details }

/-- `StateStore.recordExecution(workflow, status, details)`: push the record,
then `if (executions.length > 100) executions = executions.slice(-100)`. -/
def recordExecution (st : StateStore) (workflow status : String)
    (details : List (String × String)) (now : String) : StateStore :=
  let pushed := st.executions ++ [execRecord workflow status details now]
  { st with executions := if 100 < pushed.length then lastN 100 pushed else pushed }

/-- One call of `recordExecution` with its explicit timestamp. -/
structure ExecCall where
  workflow : String
  status : String
  details : List (String × String)
  now : String
deriving DecidableEq, Repr

/-- A sequence of `recordExecution` calls applied in order. -/
def recordExecutionList (st : StateStore) (calls : List ExecCall) : StateStore :=
  calls.foldl (fun acc c => recordExecution acc c.workflow c.status c.details c.now) st

/-! ## Signal detection (`triggers/githubTrigger.js`, `detectSignals`) -/

/-- The fields of a GitHub commit API item read by `detectSignals`. -/
structure CommitInfo where
  sha : String
  message : String
  author : String
  date : String
  htmlUrl : String
  filesChanged : Nat
deriving DecidableEq, Repr

/-- The fields of the GitHub README API response read by `detectSignals`. -/
structure ReadmeInfo where
  sha : String
  name : String
  path : String
  htmlUrl : String
  size : Nat
deriving DecidableEq, Repr

/-- The fields of a GitHub issue API item read by `detectSignals`.
`isPullRequest` models the truthiness of `issue.pull_request`. -/
structure IssueInfo where
  number : Nat
  title : String
  state : String
  author : String
  createdAt : String
  htmlUrl : String
  labels : List String
  isPullRequest : Bool
deriving DecidableEq, Repr

/-- Union of the kind-specific `signal.data` payload fields built by
`detectSignals` (JavaScript objects are duck-typed; absent fields default). -/
structure SignalData where
  sha : String := ""
  message : String := ""
  author : String := ""
  date : String := ""
  url : String := ""
  filesChanged : Nat := 0
  name : String := ""
  path : String := ""
  size : Nat := 0
  number : Nat := 0
  title : String := ""
  state : String := ""
  createdAt : String := ""
  labels : List String := []
deriving DecidableEq, Repr

/-- A detected signal: `{ type, id, data, confidence }`. -/
structure Signal where
  type : String
  id : String
  data : SignalData
  confidence : ℚ
deriving DecidableEq, Repr

/-- `GitHubTrigger.detectSignals(repo)`, with the three upstream fetches
passed as data: `commits` is the result of `fetchRecentCommits` (whose failure
aborts the whole call, so a successful pass is assumed), `readme` is `none`
when `fetchReadme` threw (that branch is wrapped in its own try/catch), and
`issues` is `none` when `fetchRecentIssues` threw.  Each candidate is pushed
only when `!stateStore.hasProcessed(signalId)`. -/
def detectSignals (st : StateStore) (commits : List CommitInfo)
    (readme : Option ReadmeInfo) (issues : Option (List IssueInfo)) : List Signal :=
  let commitSignals := commits.filterMap fun c =>
    let signalId := "commit:" ++ c.sha
    if hasProcessed st signalId then none
    else some { type := "commit", id := signalId,
                data := { sha := c.sha, message := c.message, author := c.author,
                          date := c.date, url := c.htmlUrl, filesChanged := c.filesChanged },
                confidence := 0.7 }
  let readmeSignals := match readme with
    | none => []
    | some r =>
      let signalId := "readme:" ++ r.sha
      if hasProcessed st signalId then []
      else [{ type := "readme_update", id := signalId,
              data := { sha := r.sha, name := r.name, path := r.path,
                        url := r.htmlUrl, size := r.size },
              confidence := 0.8 }]
  let issueSignals := match issues with
    | none => []
    | some list => list.filterMap fun i =>
        if i.isPullRequest then none
        else
          let signalId := "issue:" ++ toString i.number
          if hasProcessed st signalId then none
          else some { type := "issue", id := signalId,
                      data := { number := i.number, title := i.title, state := i.state,
                                author := i.author, createdAt := i.createdAt,
                                url := i.htmlUrl, labels := i.labels },
                      confidence := 0.6 }
  commitSignals ++ readmeSignals ++ issueSignals

/-! ## Signal classifier (`triggers/signalClassifier.js`) -/

/-- The `\w` character class of JavaScript regular expressions. -/
def isWordChar (c : Char) : Bool := c.isAlphanum || c = '_'

/-- Does the word `w` match at the head of `s`, followed by a `\b` boundary
(end of input or a non-word character)? -/
def wordFrom : List Char → List Char → Bool
  | [], [] => true
  | [], c :: _ => !isWordChar c
  | _ :: _, [] => false
  | a :: w, b :: s => a = b && wordFrom w s

/-- Is there a `\b`-delimited occurrence of the word `w` anywhere in the text?
`prev` is the character immediately before the current position. -/
def hasWordFrom (w : List Char) : Option Char → List Char → Bool
  | prev, [] =>
    (match prev with | none => true | some c => !isWordChar c) && wordFrom w []
  | prev, c :: rest =>
    ((match prev with | none => true | some c0 => !isWordChar c0) && wordFrom w (c :: rest))
    || hasWordFrom w (some c) rest

/-- Model of `/\b(w1|w2|...)\b/i.test(msg)` for a lower-cased `msg` and
lower-case literal alternatives. -/
def testWordsIn (ws : List String) (msg : List Char) : Bool :=
  ws.any fun w => hasWordFrom w.data none msg

/-- JavaScript `s.toLowerCase()` on the ASCII range, as a character list. -/
def toLowerList (s : String) : List Char := s.data.map Char.toLower

/-- Provenance block `classification` attached by the classifier. -/
structure Classification where
  method : String
  originalConfidence : Option ℚ
deriving DecidableEq, Repr

/-- A classified signal: the input signal spread together with `category`,
the adjusted `confidence` and the `classification` block. -/
structure ClassifiedSignal where
  type : String
  id : String
  data : SignalData
  confidence : ℚ
  category : String
  classification : Classification
deriving DecidableEq, Repr

/-- The `(category, confidenceAdjustment)` pair chosen by the commit-message
heuristic in `classifyCommit`. -/
def commitAdjustment (message : List Char) : String × ℚ :=
  if testWordsIn ["feat", "feature", "add", "implement"] message then ("code", 0.1)
  else if testWordsIn ["doc", "docs", "readme", "documentation"] message then ("docs", 0.15)
  else if testWordsIn ["fix", "bug", "patch", "hotfix"] message then ("code", 0.05)
  else if testWordsIn ["config", "setup", "build", "ci", "cd"] message then ("config", -0.05)
  else if testWordsIn ["refactor", "cleanup", "style"] message then ("code", 0)
  else ("unknown", 0)

/-- `SignalClassifier.classifyCommit(signal)`. -/
def classifyCommit (signal : Signal) : ClassifiedSignal :=
  let catAdj := commitAdjustment (toLowerList signal.data.message)
  { type := signal.type, id := signal.id, data := signal.data,
    category := catAdj.1,
    confidence := max 0.3 (min 1.0 (signal.confidence + catAdj.2)),
    classification := { method := "commit_message_heuristic",
                        originalConfidence := some signal.confidence } }

/-- `SignalClassifier.classifyReadme(signal)`; note the bare
`Math.min(1.0, signal.confidence + 0.1)` with no lower clamp. -/
def classifyReadme (signal : Signal) : ClassifiedSignal :=
  { type := signal.type, id := signal.id, data := signal.data,
    category := "docs",
    confidence := min 1.0 (signal.confidence + 0.1),
    classification := { method := "readme_direct",
                        originalConfidence := some signal.confidence } }

/-- The `(category, confidenceAdjustment)` pair chosen by `classifyIssue`:
label-based first, then title-based only when the category is still
`unknown`. -/
def issueAdjustment (labels : List String) (title : List Char) : String × ℚ :=
  let labelCatAdj : String × ℚ :=
    if labels.contains "bug" || labels.contains "fix" then ("code", 0.05)
    else if labels.contains "documentation" || labels.contains "docs" then ("docs", 0.1)
    else if labels.contains "feature" || labels.contains "enhancement" then ("code", 0.1)
    else ("unknown", 0)
  if labelCatAdj.1 = "unknown" then
    if testWordsIn ["bug", "error", "broken", "crash"] title then ("code", 0)
    else if testWordsIn ["doc", "docs", "readme", "documentation"] title then ("docs", 0.05)
    else if testWordsIn ["feature", "enhancement", "improve"] title then ("code", 0.05)
    else ("unknown", 0)
  else labelCatAdj

/-- `SignalClassifier.classifyIssue(signal)`. -/
def classifyIssue (signal : Signal) : ClassifiedSignal :=
  let catAdj := issueAdjustment signal.data.labels (toLowerList signal.data.title)
  { type := signal.type, id := signal.id, data := signal.data,
    category := catAdj.1,
    confidence := max 0.3 (min 1.0 (signal.confidence + catAdj.2)),
    classification := { method := "issue_labels_title",
                        originalConfidence := some signal.confidence } }

/-- `SignalClassifier.classify(signal)`: dispatch on `signal.type`; the
default branch spreads the signal unchanged and only adds
`category: 'unknown'` and `classification: { method: 'unhandled_type' }`. -/
def classify (signal : Signal) : ClassifiedSignal :=
  if signal.type = "commit" then classifyCommit signal
  else if signal.type = "readme_update" then classifyReadme signal
  else if signal.type = "issue" then classifyIssue signal
  else
    { type := signal.type, id := signal.id, data := signal.data,
      confidence := signal.confidence, category := "unknown",
      classification := { method := "unhandled_type", originalConfidence := none } }

/-! ## Content generator (`services/contentGenerator.js`) -/

/-- The `prompt.metadata` block as consumed by the generator.  Prompts built
by `PromptBuilder.buildPrompt` carry `{ signalId, timestamp, category,
confidence }` and, notably, no `topic` field; `_generateFallback` reads
`metadata.topic`, so that field is modelled explicitly as optional. -/
structure PromptMetadata where
  signalId : Option String := none
  timestamp : Option String := none
  category : Option String := none
  confidence : Option ℚ := none
  topic : Option String := none
deriving DecidableEq, Repr

/-- The `prompt.context` block read by `_generateFallback`
(`context.summary?.substring(0, 50)`). -/
structure PromptContext where
  summary : Option String := none
deriving DecidableEq, Repr

/-- The prompt object as consumed by `ContentGenerator.generate`.
`system`, `instructions` and `constraints` are only tested for truthiness on
the failure paths verified here (their contents feed `_formatMistralPrompt`,
whose result goes to the network call that is modelled by its outcome), so
they are modelled as presence flags. -/
structure GenPrompt where
  metadata : Option PromptMetadata := none
  system : Bool := false
  instructions : Bool := false
  context : Option PromptContext := none
  constraints : Bool := false
deriving DecidableEq, Repr

/-- `ContentGenerator._validatePrompt(prompt)`: all of `metadata`, `system`,
`instructions`, `context`, `constraints` truthy. -/
def validatePromptFields (prompt : GenPrompt) : Bool :=
  prompt.metadata.isSome && prompt.system && prompt.instructions
    && prompt.context.isSome && prompt.constraints

/-- Result object shape produced by `_generateWithHuggingFace` /
`_generateFallback` before `_validateOutput`. -/
structure GenResultRaw where
  text : Option String := none
  provider : Option String := none
  model : Option String := none
deriving DecidableEq, Repr

/-- Observable outcome of the HuggingFace inference POST inside
`_generateWithHuggingFace`: the request succeeded with a generated text, or
it threw (timeout, 429, 503, transport error, ...), or the response carried
no `[0].generated_text`. -/
inductive HFBehavior where
  | success (generatedText : String)
  | apiFailure (message : String)
  | badResponseShape
deriving DecidableEq, Repr

/-- Does the character list start with the given pattern? -/
def leadsWith : List Char → List Char → Bool
  | [], _ => true
  | _ :: _, [] => false
  | a :: w, b :: s => a = b && leadsWith w s

/-- Single left-to-right pass of
`.replace(/\[INST\]|\[\/INST\]|<s>|<\/s>/g, '')`: at each position the first
matching alternative is deleted and scanning resumes after it. -/
def stripTags : List Char → List Char
  | [] => []
  | c :: rest =>
    if leadsWith "[INST]".data (c :: rest) then stripTags (rest.drop 5)
    else if leadsWith "[/INST]".data (c :: rest) then stripTags (rest.drop 6)
    else if leadsWith "<s>".data (c :: rest) then stripTags (rest.drop 2)
    else if leadsWith "</s>".data (c :: rest) then stripTags (rest.drop 3)
    else c :: stripTags rest
termination_by l => l.length
decreasing_by
  all_goals simp [List.length_drop]
  all_goals omega

/-- Single pass of `.replace(/\n{3,}/g, '\n\n')`: a run of three or more
line feeds becomes exactly two; shorter runs are kept. -/
def collapseNL : List Char → List Char
  | [] => []
  | c :: rest =>
    if c = '\n' then
      let run := 1 + (rest.takeWhile (fun d => d = '\n')).length
      (if 3 ≤ run then ['\n', '\n'] else List.replicate run '\n')
        ++ collapseNL (rest.dropWhile (fun d => d = '\n'))
    else c :: collapseNL rest
termination_by l => l.length
decreasing_by
  · simp only [List.length_cons]
    exact Nat.lt_succ_of_le (List.Sublist.length_le (List.dropWhile_sublist _))
  · simp only [List.length_cons]
    omega

/-- `ContentGenerator._cleanGeneratedText(text)`: trim, strip instruction
tags, collapse blank-line runs, truncate to the 3000-character limit. -/
def cleanGeneratedText (text : String) : String :=
  String.mk ((collapseNL (stripTags (trimWS text.data))).take 3000)

/-- The primary text model name configured in the generator. -/
def hfTextModel : String := "mistralai/Mistral-7B-Instruct-v0.2"

/-- `ContentGenerator._generateWithHuggingFace(prompt)`: `null` when no token
is configured; all thrown errors are caught inside and also yield `null`, as
does a response without `generated_text`. -/
def generateWithHuggingFace (hfToken : Option String) (behavior : HFBehavior) :
    Option GenResultRaw :=
  match hfToken with
  | none => none
  | some _ =>
    match behavior with
    | .success generatedText =>
        some { text := some (cleanGeneratedText generatedText),
               provider := some "huggingface", model := some hfTextModel }
    | .apiFailure _ => none
    | .badResponseShape => none

/-- JavaScript `topic.replace(/\s+/g, '')`. -/
def removeWS (s : String) : String := String.mk (s.data.filter (fun c => !isWS c))

/-- The placeholder text assembled by `_generateFallback` once
`metadata.topic` is known to be a string.  `context.summary?.substring(0, 50)
|| 'Details about signal'` falls back when `summary` is absent or empty. -/
def fallbackText (topic : String) (summary : Option String) : String :=
  "[PLACEHOLDER: LinkedIn post about " ++ topic
    ++ "]\n\n[Hook: Opening statement]\n\n[Context: "
    ++ (match summary with
        | some s => if s = "" then "Details about signal" else s.take 50
        | none => "Details about signal")
    ++ "...]\n\n[Call-to-action]\n\n#" ++ removeWS topic ++ " #Automation"

/-- `ContentGenerator._generateFallback(prompt)`.  The template evaluation
dereferences `metadata.topic` (inside the template literal this merely
stringifies `undefined`), `context.summary` and finally calls
`metadata.topic.replace(...)`; each missing object turns the evaluation into
a thrown `TypeError`, modelled as `Except.error`. -/
def generateFallback (prompt : GenPrompt) : Except String GenResultRaw :=
  match prompt.metadata with
  | none => .error "TypeError: Cannot read properties of undefined (reading topic)"
  | some md =>
    match prompt.context with
    | none => .error "TypeError: Cannot read properties of undefined (reading summary)"
    | some ctx =>
      match md.topic with
      | none => .error "TypeError: Cannot read properties of undefined (reading replace)"
      | some topic =>
          .ok { text := some (fallbackText topic ctx.summary),
                provider := some "fallback", model := some "template" }

/-- The object finally returned by `generate`: either the `_validateOutput`
shape or the catch-all error shape `{ text: null, metadata: { error },
provider: 'error' }`. -/
structure GenContent where
  text : Option String
  provider : String
  model : Option String
  validated : Bool
  errorMsg : Option String
deriving DecidableEq, Repr

/-- `ContentGenerator._validateOutput(result)`: `result.text || null` (an
empty string is falsy), `result.provider || 'unknown'`,
`result.model || 'unknown'`, metadata extended with `validated: true`. -/
def validateOutput (result : GenResultRaw) : GenContent :=
  { text := match result.text with
            | some t => if t = "" then none else some t
            | none => none,
    provider := result.provider.getD "unknown",
    model := some (result.model.getD "unknown"),
    validated := true,
    errorMsg := none }

/-- `ContentGenerator.generate(prompt)`.  The whole body is wrapped in
try/catch: a failed `_validatePrompt` throws `Invalid prompt structure`, a
crash inside `_generateFallback` propagates to the same catch; the catch
returns `{ text: null, metadata: { error }, provider: 'error' }`.  A `null`
(or error-tagged) HuggingFace result is replaced by the fallback template.
`_enforceRateLimit` only delays and is not observable here. -/
def generate (prompt : GenPrompt) (hfToken : Option String)
    (behavior : HFBehavior) : GenContent :=
  if !validatePromptFields prompt then
    { text := none, provider := "error", model := none, validated := false,
      errorMsg := some "Invalid prompt structure" }
  else
    match generateWithHuggingFace hfToken behavior with
    | some result => validateOutput result
    | none =>
      match generateFallback prompt with
      | .ok result => validateOutput result
      | .error e =>
          { text := none, provider := "error", model := none, validated := false,
            errorMsg := some e }

/-! ## LinkedIn publisher (`services/linkedinPublisher.js`) -/

/-- The `content.image` object (only presence and fields read by the
publisher are modelled). -/
structure PostImage where
  url : Option String := none
  alt : Option String := none
  uploadedUrn : Option String := none
deriving DecidableEq, Repr

/-- The `content.metadata` block attached by the workflow engine. -/
structure ContentMeta where
  topic : Option String := none
  signalType : Option String := none
deriving DecidableEq, Repr

/-- The content payload handed to `publish`. -/
structure PostContent where
  text : Option String := none
  image : Option PostImage := none
  metadata : Option ContentMeta := none
deriving DecidableEq, Repr

/-- `LinkedInPublisher._validateContent(content)`: `content.text` must be a
string, non-empty and at most 3000 characters. -/
def validateContent (content : PostContent) : Bool :=
  match content.text with
  | some t => decide (0 < t.length) && decide (t.length ≤ 3000)
  | none => false

/-- Publisher configuration read from the environment in the constructor. -/
structure PublisherConfig where
  accessToken : Option String
  personUrn : Option String
  autoPublish : Bool
deriving DecidableEq, Repr

/-- An item of `this.queue`.  `publishedAt` and `postId` are absent until the
item is published from the queue. -/
structure QueueItem where
  id : String
  content : PostContent
  status : String
  createdAt : String
  metaTopic : Option String
  metaSignalType : Option String
  publishedAt : Option String := none
  postId : Option String := none
deriving DecidableEq, Repr

/-- The id generated by `_queuePost`:
`` `queue_${Date.now()}_${Math.random().toString(36).substr(2, 9)}` ``.
`now` is the millisecond timestamp, `rand` the random base-36 suffix. -/
def queuePostId (now : Nat) (rand : String) : String :=
  "queue_" ++ toString now ++ "_" ++ rand

/-- The queue item built by `_queuePost`. -/
def queuedItem (content : PostContent) (now : Nat) (nowIso : String)
    (rand : String) : QueueItem :=
  { id := queuePostId now rand,
    content := content,
    status := "pending",
    createdAt := nowIso,
    metaTopic := content.metadata.bind (fun m => m.topic),
    metaSignalType := content.metadata.bind (fun m => m.signalType) }

/-- The `{ status: 'queued', queueId, message, viewUrl: null }` object
returned by `_queuePost`. -/
structure QueueAck where
  queueId : String
  message : String
deriving DecidableEq, Repr

/-- The fixed `message` string of the `_queuePost` acknowledgement. -/
def queueMessage : String :=
  "Post queued for manual review. Use getQueue() to retrieve pending posts."

/-- `LinkedInPublisher._queuePost(content)`: push a fresh `pending` item and
return the acknowledgement object. -/
def queuePost (queue : List QueueItem) (content : PostContent) (now : Nat)
    (nowIso : String) (rand : String) : QueueAck × List QueueItem :=
  let item := queuedItem content now nowIso rand
  ({ queueId := item.id, message := queueMessage }, queue ++ [item])

/-- Observable outcome of the LinkedIn UGC POST inside
`_attemptAutoPublish`. -/
inductive LinkedInAPIOutcome where
  | ok (postId : String)
  | http401
  | http403
  | failure (message : String)
deriving DecidableEq, Repr

/-- The success object returned by `_attemptAutoPublish`. -/
structure PublishedInfo where
  postId : String
  publishedAt : String
  url : String
deriving DecidableEq, Repr

/-- `LinkedInPublisher._attemptAutoPublish(content)`: throws when credentials
are missing; maps a 401 to an authentication error, a 403 to a permission
error, rethrows other failures; on success returns the published object. -/
def attemptAutoPublish (cfg : PublisherConfig) (content : PostContent)
    (outcome : LinkedInAPIOutcome) (nowIso : String) : Except String PublishedInfo :=
  if cfg.accessToken.isNone || cfg.personUrn.isNone then
    .error "LinkedIn credentials not configured"
  else
    match outcome with
    | .ok postId =>
        .ok { postId := postId, publishedAt := nowIso,
              url := "https://www.linkedin.com/feed/update/" ++ postId ++ "/" }
    | .http401 => .error "LinkedIn authentication failed - token may be expired"
    | .http403 =>
        .error "LinkedIn API permissions insufficient - requires w_member_social scope"
    | .failure message => .error message

/-- The result of `publish`: the queued acknowledgement, the published
object, or the catch-all `{ status: 'error', error, fallback, queueId:
<result of _queuePost> }` (whose `queueId` field holds the whole nested
acknowledgement object). -/
inductive PublishResult where
  | queued (ack : QueueAck)
  | published (info : PublishedInfo)
  | errored (error : String) (fallback : String) (queueAck : QueueAck)
deriving DecidableEq, Repr

/-- `LinkedInPublisher.publish(content)`: validation failure throws into the
catch which enqueues; queue-first when auto-publish is off or no token;
otherwise attempt auto-publish, any thrown error again being caught and
degraded to enqueueing. -/
def publish (cfg : PublisherConfig) (queue : List QueueItem)
    (content : PostContent) (outcome : LinkedInAPIOutcome) (now : Nat)
    (nowIso : String) (rand : String) : PublishResult × List QueueItem :=
  if !validateContent content then
    let acked := queuePost queue content now nowIso rand
    (.errored "Invalid content structure" "Content queued for manual review" acked.1,
     acked.2)
  else if !cfg.autoPublish || cfg.accessToken.isNone then
    let acked := queuePost queue content now nowIso rand
    (.queued acked.1, acked.2)
  else
    match attemptAutoPublish cfg content outcome nowIso with
    | .ok info => (.published info, queue)
    | .error e =>
      let acked := queuePost queue content now nowIso rand
      (.errored e "Content queued for manual review" acked.1, acked.2)

/-- `LinkedInPublisher.getQueue(status)`: read-only filter of the queue. -/
def getQueue (queue : List QueueItem) (status : String) : List QueueItem :=
  if status = "all" then queue else queue.filter (fun item => item.status = status)

/-- In-place mutation of the first queue item with the given id (the source
mutates the object found by `this.queue.find(...)`). -/
def updateFirst (queue : List QueueItem) (queueId : String)
    (f : QueueItem → QueueItem) : List QueueItem :=
  match queue with
  | [] => []
  | item :: rest =>
    if item.id = queueId then f item :: rest
    else item :: updateFirst rest queueId f

/-- `LinkedInPublisher.publishFromQueue(queueId)`: not-found and
already-processed guards throw; a throw from `_attemptAutoPublish`
propagates before any mutation, so the queue is returned unchanged; on
success the found item is mutated to `published` with `publishedAt` and
`postId`. -/
def publishFromQueue (cfg : PublisherConfig) (queue : List QueueItem)
    (queueId : String) (outcome : LinkedInAPIOutcome) (nowIso : String) :
    Except String PublishedInfo × List QueueItem :=
  match queue.find? (fun item => item.id = queueId) with
  | none => (.error ("Queue item " ++ queueId ++ " not found"), queue)
  | some item =>
    if item.status ≠ "pending" then
      (.error ("Queue item " ++ queueId ++ " already processed"), queue)
    else
      match attemptAutoPublish cfg item.content outcome nowIso with
      | .error e => (.error e, queue)
      | .ok info =>
        (.ok info,
         updateFirst queue queueId (fun it =>
           { it with status := "published", publishedAt := some nowIso,
                     postId := some info.postId }))

/-! ## Invariant predicates for the sanitizer proofs -/

/-- Every whitespace character of the list is a plain space. -/
def onlySpaces (l : List Char) : Prop := ∀ c ∈ l, isWS c = true → c = ' '

/-- No two adjacent characters are both spaces. -/
def noDouble (l : List Char) : Prop :=
  List.Chain' (fun a b => ¬(a = ' ' ∧ b = ' ')) l

/-- The first character, if any, is not whitespace. -/
def headNotWS (l : List Char) : Prop := ∀ c, l.head? = some c → isWS c = false

/-- The last character, if any, is not whitespace. -/
def lastNotWS (l : List Char) : Prop := ∀ c, l.getLast? = some c → isWS c = false

/-- Canonical form reached by `replace(/\s+/g, ' ')` followed by `trim()`:
only single interior spaces, none at either end. -/
def SanitizedChars (l : List Char) : Prop :=
  onlySpaces l ∧ noDouble l ∧ headNotWS l ∧ lastNotWS l

/-! ## Helper lemmas -/

theorem lookupA_upsert {α : Type} (l : List (String × α)) (k : String) (v : α) :
    lookupA (upsert l k v) k = some v := by
  induction l with
  | nil => simp [upsert, lookupA]
  | cons p rest ih =>
    obtain ⟨k2, v2⟩ := p
    by_cases h : k2 = k
    · simp [upsert, h, lookupA]
    · simpa [upsert, h, lookupA] using ih

theorem find?_updateFirst (queue : List QueueItem) (queueId : String)
    (f : QueueItem → QueueItem) (hf : ∀ it, (f it).id = it.id) (item : QueueItem)
    (h : queue.find? (fun it => it.id = queueId) = some item) :
    (updateFirst queue queueId f).find? (fun it => it.id = queueId) = some (f item) := by
  induction queue with
  | nil => simp at h
  | cons hd rest ih =>
    by_cases hid : hd.id = queueId
    · have h' : some hd = some item := by
        rw [← h]
        exact (List.find?_cons_of_pos _ (by simp [hid])).symm
      obtain rfl : hd = item := by injection h'
      have hup : updateFirst (hd :: rest) queueId f = f hd :: rest := by
        simp [updateFirst, hid]
      rw [hup]
      exact List.find?_cons_of_pos _ (by simp [hf, hid])
    · have hup : updateFirst (hd :: rest) queueId f = hd :: updateFirst rest queueId f := by
        simp [updateFirst, hid]
      rw [hup, List.find?_cons_of_neg _ (by simp [hid])]
      rw [List.find?_cons_of_neg _ (by simp [hid])] at h
      exact ih h

/-! ## Claim theorems -/

/-- Claim C1.  Ledger idempotency: `hasProcessed(id)` is true immediately
after `markProcessed(id, m)`, for any metadata; and every signal returned by
a `detectSignals` pass has an id that is not yet in the ledger (the
already-processed ids are filtered out at the source). -/
theorem hasProcessed_markProcessed_detect_excludes (st : StateStore)
    (id : String) (m : List (String × String)) (now : String)
    (commits : List CommitInfo) (readme : Option ReadmeInfo)
    (issues : Option (List IssueInfo)) :
    hasProcessed (markProcessed st id m now) id = true ∧
    ∀ s ∈ detectSignals st commits readme issues, hasProcessed st s.id = false := by
  constructor
  · simp [hasProcessed, markProcessed, lookupA_upsert]
  · intro s hs
    simp only [detectSignals, List.mem_append] at hs
    rcases hs with (hs | hs) | hs
    · rw [List.mem_filterMap] at hs
      obtain ⟨c, -, hc⟩ := hs
      cases h : hasProcessed st ("commit:" ++ c.sha) with
      | true => simp [h] at hc
      | false =>
        simp only [h, Bool.false_eq_true, if_false, Option.some.injEq] at hc
        rw [← hc]
        exact h
    · rcases hr : readme with _ | r
      · simp [hr] at hs
      · rw [hr] at hs
        cases h : hasProcessed st ("readme:" ++ r.sha) with
        | true => simp [h] at hs
        | false =>
          simp only [h, Bool.false_eq_true, if_false, List.mem_singleton] at hs
          rw [hs]
          exact h
    · rcases hi : issues with _ | list
      · simp [hi] at hs
      · rw [hi] at hs
        rw [List.mem_filterMap] at hs
        obtain ⟨i, -, hc⟩ := hs
        cases hpr : i.isPullRequest with
        | true => simp [hpr] at hc
        | false =>
          simp only [hpr, Bool.false_eq_true, if_false] at hc
          cases h : hasProcessed st ("issue:" ++ toString i.number) with
          | true => simp [h] at hc
          | false =>
            simp only [h, Bool.false_eq_true, if_false, Option.some.injEq] at hc
            rw [← hc]
            exact h

/-- Witness for C1 on concrete data: the ledger already holds `commit:aaa`;
marking `commit:abc` makes it processed, and the signal detected for the
unprocessed commit `bbb` has an id absent from the ledger. -/
theorem hasProcessed_markProcessed_detect_excludes_witness :
    hasProcessed
      (markProcessed ⟨[("commit:aaa", ⟨"t0", []⟩)], [], []⟩ "commit:abc" [] "t1")
      "commit:abc" = true ∧
    hasProcessed (⟨[("commit:aaa", ⟨"t0", []⟩)], [], []⟩ : StateStore)
      "commit:bbb" = false := by
  constructor
  · exact (hasProcessed_markProcessed_detect_excludes
      ⟨[("commit:aaa", ⟨"t0", []⟩)], [], []⟩ "commit:abc" [] "t1" [] none none).1
  · have h := (hasProcessed_markProcessed_detect_excludes
      ⟨[("commit:aaa", ⟨"t0", []⟩)], [], []⟩ "commit:abc" [] "t1"
      [⟨"aaa", "m1", "ann", "d1", "u1", 0⟩, ⟨"bbb", "m2", "bob", "d2", "u2", 1⟩]
      none none).2
    have hmem : (⟨"commit", "commit:bbb",
        { sha := "bbb", message := "m2", author := "bob", date := "d2",
          url := "u2", filesChanged := 1 }, 0.7⟩ : Signal) ∈
        detectSignals ⟨[("commit:aaa", ⟨"t0", []⟩)], [], []⟩
          [⟨"aaa", "m1", "ann", "d1", "u1", 0⟩, ⟨"bbb", "m2", "bob", "d2", "u2", 1⟩]
          none none := by
      simp [detectSignals, hasProcessed, lookupA]
    exact h _ hmem

/-- Claim C10.  If `_attemptAutoPublish` throws inside `publishFromQueue`,
the error propagates before any mutation: the queue is returned unchanged,
so the item keeps status `pending` and gains neither `publishedAt` nor
`postId`, and can be retried. -/
theorem publishFromQueue_error_preserves_queue (cfg : PublisherConfig)
    (queue : List QueueItem) (queueId : String) (outcome : LinkedInAPIOutcome)
    (nowIso : String) (item : QueueItem) (e : String)
    (hfind : queue.find? (fun it => it.id = queueId) = some item)
    (hpend : item.status = "pending")
    (herr : attemptAutoPublish cfg item.content outcome nowIso = .error e) :
    publishFromQueue cfg queue queueId outcome nowIso = (.error e, queue) := by
  simp [publishFromQueue, hfind, hpend, herr]

/-- Witness for C10: with no credentials configured the publish attempt
throws, and the single-item queue holding a pending post is unchanged. -/
theorem publishFromQueue_error_preserves_queue_witness :
    publishFromQueue ⟨none, none, false⟩
      [queuedItem { text := some "hi" } 7 "t0" "r0"] "queue_7_r0" (.failure "boom")
      "t1" =
    (.error "LinkedIn credentials not configured",
     [queuedItem { text := some "hi" } 7 "t0" "r0"]) :=
  publishFromQueue_error_preserves_queue ⟨none, none, false⟩
    [queuedItem { text := some "hi" } 7 "t0" "r0"] "queue_7_r0" (.failure "boom")
    "t1" (queuedItem { text := some "hi" } 7 "t0" "r0")
    "LinkedIn credentials not configured" (by decide) rfl rfl

/-- Counterexample to claim C9 as stated: two distinct `_queuePost` calls in
the same process that happen at the same millisecond and draw the same
base-36 suffix produce identical queue item ids. -/
theorem queuePost_id_collision :
    ((queuePost
        ((queuePost [] { text := some "hi" } 1234 "t0" "4fzyo82mv").2)
        { text := some "hi" } 1234 "t0" "4fzyo82mv").2).map QueueItem.id =
      ["queue_1234_4fzyo82mv", "queue_1234_4fzyo82mv"] := by decide

/-- Claim C9, amended.  Within one millisecond timestamp, the ids generated
by `_queuePost` are distinct exactly when the drawn random suffixes are
distinct; `queue_${Date.now()}_${random suffix}` offers no uniqueness
guarantee beyond the (timestamp, suffix) pair. -/
theorem queuePostId_same_millisecond (now : Nat) (r1 r2 : String) :
    queuePostId now r1 = queuePostId now r2 ↔ r1 = r2 := by
  constructor
  · intro h
    have hd : ("queue_" ++ toString now ++ "_").data ++ r1.data
        = ("queue_" ++ toString now ++ "_").data ++ r2.data := by
      have := congrArg String.data h
      simpa [queuePostId, String.data_append, List.append_assoc] using this
    have : r1.data = r2.data := List.append_cancel_left hd
    exact congrArg String.mk this
  · intro h
    rw [h]

theorem queuePostId_ne_empty (now : Nat) (rand : String) :
    queuePostId now rand ≠ "" := by
  intro h
  have hlen := congrArg String.length h
  rw [queuePostId] at hlen
  simp only [String.length_append] at hlen
  have h6 : ("queue_" : String).length = 6 := rfl
  have h1 : ("_" : String).length = 1 := rfl
  have h0 : ("" : String).length = 0 := rfl
  omega

/-- Claim C4.  Queue lifecycle: `_queuePost` creates items in status
`pending`; `publishFromQueue` on a pending item whose publish attempt
succeeds transitions it to `published`; invoking `publishFromQueue` again on
the same id then throws the `already processed` error and leaves the queue
as it is. -/
theorem queue_lifecycle (cfg : PublisherConfig) (tok urn : String)
    (htok : cfg.accessToken = some tok) (hurn : cfg.personUrn = some urn)
    (queue : List QueueItem) (content : PostContent) (now : Nat)
    (nowIso nowIso2 nowIso3 : String) (rand : String) (queueId : String)
    (item : QueueItem) (postId : String) (outcome2 : LinkedInAPIOutcome)
    (hfind : queue.find? (fun it => it.id = queueId) = some item)
    (hpend : item.status = "pending") :
    (queuedItem content now nowIso rand).status = "pending" ∧
    (queuePost queue content now nowIso rand).2 =
      queue ++ [queuedItem content now nowIso rand] ∧
    (publishFromQueue cfg queue queueId (.ok postId) nowIso2).1 =
      .ok { postId := postId, publishedAt := nowIso2,
            url := "https://www.linkedin.com/feed/update/" ++ postId ++ "/" } ∧
    (((publishFromQueue cfg queue queueId (.ok postId) nowIso2).2).find?
        (fun it => it.id = queueId)).map QueueItem.status = some "published" ∧
    publishFromQueue cfg ((publishFromQueue cfg queue queueId (.ok postId) nowIso2).2)
        queueId outcome2 nowIso3 =
      (.error ("Queue item " ++ queueId ++ " already processed"),
       (publishFromQueue cfg queue queueId (.ok postId) nowIso2).2) := by
  have hattempt : attemptAutoPublish cfg item.content (.ok postId) nowIso2 =
      .ok { postId := postId, publishedAt := nowIso2,
            url := "https://www.linkedin.com/feed/update/" ++ postId ++ "/" } := by
    simp [attemptAutoPublish, htok, hurn]
  have hrun : publishFromQueue cfg queue queueId (.ok postId) nowIso2 =
      (.ok { postId := postId, publishedAt := nowIso2,
             url := "https://www.linkedin.com/feed/update/" ++ postId ++ "/" },
       updateFirst queue queueId (fun it =>
         { it with status := "published", publishedAt := some nowIso2,
                   postId := some postId })) := by
    simp [publishFromQueue, hfind, hpend, hattempt]
  have hfind2 : (updateFirst queue queueId (fun it =>
      { it with status := "published", publishedAt := some nowIso2,
                postId := some postId })).find? (fun it => it.id = queueId) =
      some { item with status := "published", publishedAt := some nowIso2,
                       postId := some postId } :=
    find?_updateFirst queue queueId
      (fun it => { it with status := "published", publishedAt := some nowIso2,
                           postId := some postId })
      (fun _ => rfl) item hfind
  have hQ2 : (publishFromQueue cfg queue queueId (.ok postId) nowIso2).2 =
      updateFirst queue queueId (fun it =>
        { it with status := "published", publishedAt := some nowIso2,
                  postId := some postId }) := by
    rw [hrun]
  refine ⟨rfl, rfl, by rw [hrun], ?_, ?_⟩
  · rw [hQ2, hfind2]
    rfl
  · rw [hQ2]
    simp [publishFromQueue, hfind2]

/-- Witness for C4 on concrete data: a freshly queued item is pending, a
successful `publishFromQueue` publishes it, and re-approval throws. -/
theorem queue_lifecycle_witness :
    (queuedItem { text := some "hi" } 7 "t0" "r0").status = "pending" ∧
    (queuePost [queuedItem { text := some "hi" } 7 "t0" "r0"]
        { text := some "hi" } 7 "t0" "r0").2 =
      [queuedItem { text := some "hi" } 7 "t0" "r0"]
        ++ [queuedItem { text := some "hi" } 7 "t0" "r0"] ∧
    (publishFromQueue ⟨some "tok", some "urn", true⟩
        [queuedItem { text := some "hi" } 7 "t0" "r0"] "queue_7_r0"
        (.ok "post-1") "t1").1 =
      .ok { postId := "post-1", publishedAt := "t1",
            url := "https://www.linkedin.com/feed/update/" ++ "post-1" ++ "/" } ∧
    (((publishFromQueue ⟨some "tok", some "urn", true⟩
        [queuedItem { text := some "hi" } 7 "t0" "r0"] "queue_7_r0"
        (.ok "post-1") "t1").2).find?
        (fun it => it.id = "queue_7_r0")).map QueueItem.status = some "published" ∧
    publishFromQueue ⟨some "tok", some "urn", true⟩
        ((publishFromQueue ⟨some "tok", some "urn", true⟩
          [queuedItem { text := some "hi" } 7 "t0" "r0"] "queue_7_r0"
          (.ok "post-1") "t1").2) "queue_7_r0" (.ok "post-2") "t2" =
      (.error ("Queue item " ++ "queue_7_r0" ++ " already processed"),
       (publishFromQueue ⟨some "tok", some "urn", true⟩
          [queuedItem { text := some "hi" } 7 "t0" "r0"] "queue_7_r0"
          (.ok "post-1") "t1").2) :=
  queue_lifecycle ⟨some "tok", some "urn", true⟩ "tok" "urn" rfl rfl
    [queuedItem { text := some "hi" } 7 "t0" "r0"] { text := some "hi" } 7
    "t0" "t1" "t2" "r0" "queue_7_r0"
    (queuedItem { text := some "hi" } 7 "t0" "r0") "post-1" (.ok "post-2")
    rfl rfl

/-- Claim C5.  Degrade-to-enqueue: with auto-publish disabled or no
credential, `publish` returns status `queued` with a non-empty `queueId` and
appends exactly one pending item holding the content; when content
validation fails or the auto-publish attempt throws (credentials, 401, 403,
transport), the content is still enqueued rather than dropped. -/
theorem publish_degrade_to_enqueue (cfg : PublisherConfig)
    (queue : List QueueItem) (content : PostContent)
    (outcome : LinkedInAPIOutcome) (now : Nat) (nowIso rand : String) :
    queuePostId now rand ≠ "" ∧
    (queuedItem content now nowIso rand).status = "pending" ∧
    (queuedItem content now nowIso rand).content = content ∧
    (queuedItem content now nowIso rand).id = queuePostId now rand ∧
    (validateContent content = true → (cfg.autoPublish = false ∨ cfg.accessToken = none) →
      publish cfg queue content outcome now nowIso rand =
        (.queued { queueId := queuePostId now rand, message := queueMessage },
         queue ++ [queuedItem content now nowIso rand])) ∧
    (validateContent content = false →
      publish cfg queue content outcome now nowIso rand =
        (.errored "Invalid content structure" "Content queued for manual review"
           { queueId := queuePostId now rand, message := queueMessage },
         queue ++ [queuedItem content now nowIso rand])) ∧
    (∀ e tok, validateContent content = true → cfg.autoPublish = true →
      cfg.accessToken = some tok →
      attemptAutoPublish cfg content outcome nowIso = .error e →
      publish cfg queue content outcome now nowIso rand =
        (.errored e "Content queued for manual review"
           { queueId := queuePostId now rand, message := queueMessage },
         queue ++ [queuedItem content now nowIso rand])) := by
  refine ⟨queuePostId_ne_empty now rand, rfl, rfl, rfl, ?_, ?_, ?_⟩
  · intro hval hoff
    rcases hoff with hoff | hoff
    · simp [publish, hval, hoff, queuePost, queuedItem]
    · simp [publish, hval, hoff, queuePost, queuedItem]
  · intro hval
    simp [publish, hval, queuePost, queuedItem]
  · intro e tok hval hauto htok herr
    simp [publish, hval, hauto, htok, herr, queuePost, queuedItem]

/-- Witness for C5 on the spec scenario: auto-publish disabled, valid content
of length 50; `publish` queues it and `getQueue('pending')` then contains
exactly that one item. -/
theorem publish_degrade_to_enqueue_witness :
    publish ⟨none, none, false⟩ []
      { text := some "aaaaaaaaaaaaaaaaaaaaaaaaaaaaaaaaaaaaaaaaaaaaaaaaaa" }
      (.failure "unused") 5 "t0" "r1" =
      (.queued { queueId := queuePostId 5 "r1", message := queueMessage },
       [] ++ [queuedItem
          { text := some "aaaaaaaaaaaaaaaaaaaaaaaaaaaaaaaaaaaaaaaaaaaaaaaaaa" }
          5 "t0" "r1"]) ∧
    queuePostId 5 "r1" ≠ "" ∧
    getQueue ([] ++ [queuedItem
        { text := some "aaaaaaaaaaaaaaaaaaaaaaaaaaaaaaaaaaaaaaaaaaaaaaaaaa" }
        5 "t0" "r1"]) "pending" =
      [queuedItem
        { text := some "aaaaaaaaaaaaaaaaaaaaaaaaaaaaaaaaaaaaaaaaaaaaaaaaaa" }
        5 "t0" "r1"] := by
  have h := publish_degrade_to_enqueue ⟨none, none, false⟩ []
    { text := some "aaaaaaaaaaaaaaaaaaaaaaaaaaaaaaaaaaaaaaaaaaaaaaaaaa" }
    (.failure "unused") 5 "t0" "r1"
  exact ⟨h.2.2.2.2.1 (by decide) (Or.inl rfl), h.1, by decide⟩

theorem lastN_length_le {α : Type} (n : Nat) (l : List α) :
    (lastN n l).length ≤ n := by
  simp only [lastN, List.length_drop]
  omega

theorem lastN_eq_of_le {α : Type} {n : Nat} {l : List α} (h : l.length ≤ n) :
    lastN n l = l := by
  simp [lastN, Nat.sub_eq_zero_of_le h]

theorem recordExecution_executions (st : StateStore) (w s : String)
    (d : List (String × String)) (now : String) :
    (recordExecution st w s d now).executions =
      lastN 100 (st.executions ++ [execRecord w s d now]) := by
  simp only [recordExecution]
  split
  · rfl
  · next h => rw [lastN_eq_of_le (by omega)]

theorem lastN_append_lastN {α : Type} (n : Nat) (l B : List α) :
    lastN n (lastN n l ++ B) = lastN n (l ++ B) := by
  simp only [lastN, List.drop_append_eq_append_drop, List.length_append,
    List.length_drop, List.drop_drop]
  have e1 : l.length - n + (l.length - (l.length - n) + B.length - n)
      = l.length + B.length - n := by omega
  have e2 : l.length - (l.length - n) + B.length - n - (l.length - (l.length - n))
      = l.length + B.length - n - l.length := by omega
  rw [e1, e2]

/-- Claim C8.  Audit trail bound: starting from at most 100 recorded
executions, any sequence of `recordExecution` calls leaves exactly the most
recent 100 entries, in insertion order with the oldest evicted first, and in
particular never more than 100. -/
theorem recordExecution_audit_bound (st : StateStore) (calls : List ExecCall)
    (h : st.executions.length ≤ 100) :
    (recordExecutionList st calls).executions =
      lastN 100 (st.executions ++
        calls.map (fun c => execRecord c.workflow c.status c.details c.now)) ∧
    (recordExecutionList st calls).executions.length ≤ 100 := by
  suffices hmain : ∀ (cs : List ExecCall) (st0 : StateStore),
      st0.executions.length ≤ 100 →
      (recordExecutionList st0 cs).executions =
        lastN 100 (st0.executions ++
          cs.map (fun c => execRecord c.workflow c.status c.details c.now)) by
    refine ⟨hmain calls st h, ?_⟩
    rw [hmain calls st h]
    exact lastN_length_le _ _
  intro cs
  induction cs with
  | nil =>
    intro st0 h0
    simp only [recordExecutionList, List.foldl_nil, List.map_nil, List.append_nil]
    exact (lastN_eq_of_le h0).symm
  | cons c rest ih =>
    intro st0 h0
    have hstep := recordExecution_executions st0 c.workflow c.status c.details c.now
    have hbound : (recordExecution st0 c.workflow c.status c.details c.now).executions.length ≤ 100 := by
      rw [hstep]
      exact lastN_length_le _ _
    calc (recordExecutionList st0 (c :: rest)).executions
        = (recordExecutionList (recordExecution st0 c.workflow c.status c.details c.now) rest).executions := by
          simp [recordExecutionList]
      _ = lastN 100 ((recordExecution st0 c.workflow c.status c.details c.now).executions ++
            rest.map (fun c => execRecord c.workflow c.status c.details c.now)) :=
          ih _ hbound
      _ = lastN 100 (lastN 100 (st0.executions ++ [execRecord c.workflow c.status c.details c.now]) ++
            rest.map (fun c => execRecord c.workflow c.status c.details c.now)) := by
          rw [hstep]
      _ = lastN 100 ((st0.executions ++ [execRecord c.workflow c.status c.details c.now]) ++
            rest.map (fun c => execRecord c.workflow c.status c.details c.now)) :=
          lastN_append_lastN _ _ _
      _ = lastN 100 (st0.executions ++
            (c :: rest).map (fun c => execRecord c.workflow c.status c.details c.now)) := by
          simp

/-- Counterexample to claim C3 as stated: a `readme_update` signal with
confidence `0` (which lies in `[0, 1]`) classifies to confidence `0.1`,
outside the claimed `[0.3, 1.0]` band, because `classifyReadme` applies only
the `1.0` ceiling and no `0.3` floor. -/
theorem classify_confidence_counterexample :
    ((0 : ℚ) ≤ (⟨"readme_update", "readme:sha0", {}, 0⟩ : Signal).confidence ∧
      (⟨"readme_update", "readme:sha0", {}, 0⟩ : Signal).confidence ≤ 1) ∧
    (classify ⟨"readme_update", "readme:sha0", {}, 0⟩).confidence < 0.3 := by
  have h : (classify ⟨"readme_update", "readme:sha0", {}, 0⟩).confidence
      = min 1.0 ((0 : ℚ) + 0.1) := by
    simp [classify, classifyReadme]
  refine ⟨⟨le_refl 0, by norm_num⟩, ?_⟩
  rw [h, min_eq_right (by norm_num)]
  norm_num

/-- Claim C3, amended.  For input confidence in `[0, 1]`: `commit` and
`issue` signals classify to confidence in `[0.3, 1.0]` (both clamps are
applied); a `readme_update` signal classifies to `min(1.0, c + 0.1)`, which
can fall below `0.3`; an unrecognized type keeps its confidence unchanged. -/
theorem classify_confidence_bounds (s : Signal) (h0 : 0 ≤ s.confidence)
    (h1 : s.confidence ≤ 1) :
    ((s.type = "commit" ∨ s.type = "issue") →
      (0.3 : ℚ) ≤ (classify s).confidence ∧ (classify s).confidence ≤ 1) ∧
    (s.type = "readme_update" →
      (classify s).confidence = min 1.0 (s.confidence + 0.1)) ∧
    (s.type ≠ "commit" → s.type ≠ "readme_update" → s.type ≠ "issue" →
      (classify s).confidence = s.confidence) := by
  refine ⟨?_, ?_, ?_⟩
  · rintro (hs | hs)
    · have hc : (classify s).confidence =
          max 0.3 (min 1.0 (s.confidence + (commitAdjustment (toLowerList s.data.message)).2)) := by
        simp [classify, hs, classifyCommit]
      rw [hc]
      exact ⟨le_max_left _ _,
        max_le (by norm_num) ((min_le_left _ _).trans (by norm_num))⟩
    · have hc : (classify s).confidence =
          max 0.3 (min 1.0 (s.confidence +
            (issueAdjustment s.data.labels (toLowerList s.data.title)).2)) := by
        simp [classify, hs, classifyIssue]
      rw [hc]
      exact ⟨le_max_left _ _,
        max_le (by norm_num) ((min_le_left _ _).trans (by norm_num))⟩
  · intro hs
    simp [classify, hs, classifyReadme]
  · intro hc hr hi
    simp [classify, hc, hr, hi]

/-- Witness for the amended C3 on the spec scenario: the issue
`fix login bug` with label `bug` and prior confidence `0.6` classifies with
confidence inside `[0.3, 1.0]`. -/
theorem classify_confidence_bounds_witness :
    ((0 : ℚ) ≤ (⟨"issue", "issue:42",
        { title := "fix login bug", labels := ["bug"] }, 0.6⟩ : Signal).confidence ∧
      (⟨"issue", "issue:42",
        { title := "fix login bug", labels := ["bug"] }, 0.6⟩ : Signal).confidence ≤ 1) ∧
    ((0.3 : ℚ) ≤ (classify ⟨"issue", "issue:42",
        { title := "fix login bug", labels := ["bug"] }, 0.6⟩).confidence ∧
      (classify ⟨"issue", "issue:42",
        { title := "fix login bug", labels := ["bug"] }, 0.6⟩).confidence ≤ 1) := by
  have h := classify_confidence_bounds
    ⟨"issue", "issue:42", { title := "fix login bug", labels := ["bug"] }, 0.6⟩
    (by norm_num : (0 : ℚ) ≤ 0.6) (by norm_num : (0.6 : ℚ) ≤ 1)
  exact ⟨⟨(by norm_num : (0 : ℚ) ≤ 0.6), (by norm_num : (0.6 : ℚ) ≤ 1)⟩,
    h.1 (Or.inr rfl)⟩

theorem fallbackText_ne_empty (topic : String) (summary : Option String) :
    fallbackText topic summary ≠ "" := by
  intro h
  have hlen := congrArg String.length h
  unfold fallbackText at hlen
  simp only [String.length_append] at hlen
  have h34 : ("[PLACEHOLDER: LinkedIn post about " : String).length = 34 := rfl
  have h0 : ("" : String).length = 0 := rfl
  omega

/-- Counterexample to claim C2 as stated: a prompt that passes
`_validatePrompt` but whose `metadata` has no `topic` field (exactly the
shape built by `PromptBuilder.buildPrompt`) makes `_generateFallback` throw
`TypeError` on `metadata.topic.replace`, so when the primary capability
times out, `generate` returns `provider: 'error'` with `text: null` instead
of a fallback result. -/
theorem generate_fallback_counterexample :
    (generate { metadata := some { signalId := some "sig-1" }, system := true,
                instructions := true, context := some {}, constraints := true }
        (some "hf-token") (.apiFailure "timeout of 30000ms exceeded")).provider
      ≠ "fallback" ∧
    (generate { metadata := some { signalId := some "sig-1" }, system := true,
                instructions := true, context := some {}, constraints := true }
        (some "hf-token") (.apiFailure "timeout of 30000ms exceeded")).text
      = none := by
  constructor
  · decide
  · rfl

/-- Claim C2, amended.  `generate` never propagates the underlying error;
what it returns depends on the prompt shape.  (1) If the prompt passes
`_validatePrompt` and its `metadata.topic` is a string, a primary failure
(throw or timeout) yields the fallback template: `provider == 'fallback'`
with non-null text.  (2) If the prompt passes `_validatePrompt` but
`metadata.topic` is absent, the fallback template itself throws `TypeError`
on `metadata.topic.replace` and `generate` returns
`{ text: null, provider: 'error' }`.  (3) A prompt that fails
`_validatePrompt` never reaches the primary attempt at all: `generate`
returns `{ text: null, provider: 'error', error: 'Invalid prompt
structure' }` for every token configuration and capability behaviour.
(4) A prompt with no top-level `context` field — the shape
`PromptBuilder.buildPrompt` emits, since its context lives inside
`instructions` — always fails `_validatePrompt`, so pipeline prompts take
path (3). -/
theorem generate_fallback_on_failure (prompt : GenPrompt) (tok msg : String) :
    (∀ (md : PromptMetadata) (ctx : PromptContext) (topic : String),
      prompt.metadata = some md → prompt.system = true →
      prompt.instructions = true → prompt.context = some ctx →
      prompt.constraints = true → md.topic = some topic →
      (generate prompt (some tok) (.apiFailure msg)).provider = "fallback" ∧
      (generate prompt (some tok) (.apiFailure msg)).text =
        some (fallbackText topic ctx.summary) ∧
      (generate prompt (some tok) (.apiFailure msg)).text ≠ none) ∧
    (∀ (md : PromptMetadata) (ctx : PromptContext),
      prompt.metadata = some md → prompt.system = true →
      prompt.instructions = true → prompt.context = some ctx →
      prompt.constraints = true → md.topic = none →
      generate prompt (some tok) (.apiFailure msg) =
        { text := none, provider := "error", model := none, validated := false,
          errorMsg := some "TypeError: Cannot read properties of undefined (reading replace)" }) ∧
    (validatePromptFields prompt = false →
      ∀ (hfToken : Option String) (behavior : HFBehavior),
      generate prompt hfToken behavior =
        { text := none, provider := "error", model := none, validated := false,
          errorMsg := some "Invalid prompt structure" }) ∧
    (prompt.context = none → validatePromptFields prompt = false) := by
  refine ⟨?_, ?_, ?_, ?_⟩
  · intro md ctx topic hmd hsys hins hctx hcon htopic
    have hval : validatePromptFields prompt = true := by
      simp [validatePromptFields, hmd, hsys, hins, hctx, hcon]
    have hgen : generate prompt (some tok) (.apiFailure msg) =
        validateOutput { text := some (fallbackText topic ctx.summary),
                         provider := some "fallback", model := some "template" } := by
      simp [generate, hval, generateWithHuggingFace, generateFallback, hmd, hctx, htopic]
    rw [hgen]
    refine ⟨rfl, ?_, ?_⟩
    · simp [validateOutput, fallbackText_ne_empty topic ctx.summary]
    · simp [validateOutput, fallbackText_ne_empty topic ctx.summary]
  · intro md ctx hmd hsys hins hctx hcon htopic
    have hval : validatePromptFields prompt = true := by
      simp [validatePromptFields, hmd, hsys, hins, hctx, hcon]
    simp [generate, hval, generateWithHuggingFace, generateFallback, hmd, hctx, htopic]
  · intro hval hfToken behavior
    simp [generate, hval]
  · intro hctx
    simp [validatePromptFields, hctx]

/-- Witness for the amended C2: a validated prompt with a string topic whose
primary call times out produces the fallback template, while a
`buildPrompt`-shaped prompt (no top-level `context`) fails validation and
gets the caught `Invalid prompt structure` error result instead. -/
theorem generate_fallback_on_failure_witness :
    (generate { metadata := some { signalId := some "s1", topic := some "Lean Verification" },
                system := true, instructions := true,
                context := some { summary := some "A proof assistant" },
                constraints := true }
        (some "tok") (.apiFailure "timeout of 30000ms exceeded")).provider = "fallback" ∧
    (generate { metadata := some { signalId := some "s1", topic := some "Lean Verification" },
                system := true, instructions := true,
                context := some { summary := some "A proof assistant" },
                constraints := true }
        (some "tok") (.apiFailure "timeout of 30000ms exceeded")).text =
      some (fallbackText "Lean Verification" (some "A proof assistant")) ∧
    (generate { metadata := some { signalId := some "s1", topic := some "Lean Verification" },
                system := true, instructions := true,
                context := some { summary := some "A proof assistant" },
                constraints := true }
        (some "tok") (.apiFailure "timeout of 30000ms exceeded")).text ≠ none ∧
    validatePromptFields { metadata := some { signalId := some "s2" },
                           system := true, instructions := true,
                           context := none, constraints := true } = false ∧
    generate { metadata := some { signalId := some "s2" },
               system := true, instructions := true,
               context := none, constraints := true }
        (some "tok") (.apiFailure "timeout of 30000ms exceeded") =
      { text := none, provider := "error", model := none, validated := false,
        errorMsg := some "Invalid prompt structure" } := by
  have hA := generate_fallback_on_failure
    { metadata := some { signalId := some "s1", topic := some "Lean Verification" },
      system := true, instructions := true,
      context := some { summary := some "A proof assistant" },
      constraints := true } "tok" "timeout of 30000ms exceeded"
  have hB := generate_fallback_on_failure
    { metadata := some { signalId := some "s2" },
      system := true, instructions := true, context := none,
      constraints := true } "tok" "timeout of 30000ms exceeded"
  have h1 := hA.1 { signalId := some "s1", topic := some "Lean Verification" }
    { summary := some "A proof assistant" } "Lean Verification"
    rfl rfl rfl rfl rfl rfl
  have hinvalid : validatePromptFields
      { metadata := some { signalId := some "s2" }, system := true,
        instructions := true, context := none, constraints := true } = false :=
    hB.2.2.2 rfl
  exact ⟨h1.1, h1.2.1, h1.2.2, hinvalid,
    hB.2.2.1 hinvalid (some "tok") (.apiFailure "timeout of 30000ms exceeded")⟩

/-- Witness for C8: recording one execution on an empty store keeps the
trail bounded and equal to the last-100 suffix of the appended history. -/
theorem recordExecution_audit_bound_witness :
    (recordExecutionList ⟨[], [], []⟩ [⟨"workflow-engine", "success", [], "t1"⟩]).executions =
      lastN 100 (([] : List Execution) ++
        ([⟨"workflow-engine", "success", [], "t1"⟩] : List ExecCall).map
          (fun c => execRecord c.workflow c.status c.details c.now)) ∧
    (recordExecutionList ⟨[], [], []⟩ [⟨"workflow-engine", "success", [], "t1"⟩]).executions.length ≤ 100 :=
  recordExecution_audit_bound ⟨[], [], []⟩ [⟨"workflow-engine", "success", [], "t1"⟩]
    (by decide)

/-! ## Sanitizer lemmas -/

theorem onlySpaces_collapseWSAux (b : Bool) (l : List Char) :
    onlySpaces (collapseWSAux b l) := by
  induction l generalizing b with
  | nil => intro c hc; simp [collapseWSAux] at hc
  | cons a rest ih =>
    intro c hc hws
    by_cases ha : isWS a = true
    · rcases b with _ | _
      · rw [collapseWSAux, if_pos ha] at hc
        simp only [Bool.false_eq_true, if_false, List.mem_cons] at hc
        rcases hc with hc | hc
        · exact hc
        · exact ih true c hc hws
      · rw [collapseWSAux, if_pos ha] at hc
        simp only [if_pos] at hc
        exact ih true c hc hws
    · rw [collapseWSAux, if_neg ha] at hc
      rcases List.mem_cons.1 hc with hc | hc
      · subst hc; exact absurd hws ha
      · exact ih false c hc hws

theorem headNotWS_collapseWSAux_true (l : List Char) :
    headNotWS (collapseWSAux true l) := by
  induction l with
  | nil => intro c hc; simp [collapseWSAux] at hc
  | cons a rest ih =>
    intro c hc
    by_cases ha : isWS a = true
    · rw [collapseWSAux, if_pos ha, if_pos rfl] at hc
      exact ih c hc
    · rw [collapseWSAux, if_neg ha] at hc
      simp only [List.head?_cons, Option.some.injEq] at hc
      subst hc
      simpa using ha

theorem noDouble_collapseWSAux (b : Bool) (l : List Char) :
    noDouble (collapseWSAux b l) := by
  induction l generalizing b with
  | nil => simp [collapseWSAux, noDouble]
  | cons a rest ih =>
    by_cases ha : isWS a = true
    · rcases b with _ | _
      · rw [collapseWSAux, if_pos ha]
        simp only [Bool.false_eq_true, if_false]
        refine (List.chain'_cons').2 ⟨?_, ih true⟩
        intro y hy
        rintro ⟨-, hy'⟩
        have := headNotWS_collapseWSAux_true rest y hy
        rw [hy'] at this
        simp [isWS] at this
      · rw [collapseWSAux, if_pos ha, if_pos rfl]
        exact ih true
    · rw [collapseWSAux, if_neg ha]
      refine (List.chain'_cons').2 ⟨?_, ih false⟩
      intro y hy
      rintro ⟨ha', -⟩
      rw [ha'] at ha
      simp [isWS] at ha

theorem headNotWS_dropWhile (l : List Char) : headNotWS (l.dropWhile isWS) := by
  intro c hc
  have h := List.head?_dropWhile_not isWS l
  rw [hc] at h
  exact h

theorem onlySpaces_subset {l l' : List Char} (h : l' ⊆ l) (hl : onlySpaces l) :
    onlySpaces l' := fun c hc hws => hl c (h hc) hws

theorem noDouble_suffix {l l' : List Char} (h : l' <:+ l) (hl : noDouble l) :
    noDouble l' := List.Chain'.suffix hl h

theorem noDouble_reverse {l : List Char} (hl : noDouble l) :
    noDouble l.reverse := by
  rw [noDouble, List.chain'_reverse]
  exact hl.imp (fun a b hab => fun ⟨h1, h2⟩ => hab ⟨h2, h1⟩)

theorem getLast?_of_suffix {l l' : List Char} (h : l' <:+ l) (hne : l' ≠ []) :
    l'.getLast? = l.getLast? := by
  obtain ⟨t, rfl⟩ := h
  rw [List.getLast?_append]
  cases hl : l'.getLast? with
  | none => exact absurd (List.getLast?_eq_none_iff.1 hl) hne
  | some a => rfl

theorem head?_of_pre {l l' : List Char} (h : ∃ t, l' ++ t = l) {c : Char}
    (hc : l'.head? = some c) : l.head? = some c := by
  obtain ⟨t, rfl⟩ := h
  cases l' with
  | nil => simp at hc
  | cons a rest => simpa using hc

theorem sanitized_trim_collapse (l : List Char) :
    SanitizedChars (trimWS (collapseWS l)) := by
  have hm_only : onlySpaces (collapseWS l) := onlySpaces_collapseWSAux false l
  have hm_nd : noDouble (collapseWS l) := noDouble_collapseWSAux false l
  set m := collapseWS l with hm
  set A := m.dropWhile isWS with hA
  set B := A.reverse.dropWhile isWS with hB
  have hfinal : trimWS m = B.reverse := rfl
  have hA_suffix : A <:+ m := List.dropWhile_suffix isWS
  have hB_suffix : B <:+ A.reverse := List.dropWhile_suffix isWS
  have hsubset : B.reverse ⊆ m := by
    intro c hc
    rw [List.mem_reverse] at hc
    have : c ∈ A.reverse := hB_suffix.subset hc
    rw [List.mem_reverse] at this
    exact hA_suffix.subset this
  refine ⟨?_, ?_, ?_, ?_⟩
  · rw [hfinal]
    exact onlySpaces_subset hsubset hm_only
  · rw [hfinal]
    exact noDouble_reverse (noDouble_suffix hB_suffix
      (noDouble_reverse (noDouble_suffix hA_suffix hm_nd)))
  · rw [hfinal]
    intro c hc
    rw [List.head?_reverse] at hc
    by_cases hBnil : B = []
    · rw [hBnil] at hc
      simp at hc
    · rw [getLast?_of_suffix hB_suffix hBnil] at hc
      rw [List.getLast?_reverse] at hc
      exact headNotWS_dropWhile m c hc
  · rw [hfinal]
    intro c hc
    rw [List.getLast?_reverse] at hc
    exact headNotWS_dropWhile A.reverse c hc

theorem collapseWSAux_fix (l : List Char) : ∀ (b : Bool), onlySpaces l →
    noDouble l → (b = true → headNotWS l) → collapseWSAux b l = l := by
  induction l with
  | nil => intro b _ _ _; rfl
  | cons a rest ih =>
    intro b honly hnd hhead
    by_cases ha : isWS a = true
    · have haSp : a = ' ' := honly a (List.mem_cons_self a rest) ha
      rcases b with _ | _
      · rw [collapseWSAux, if_pos ha]
        simp only [Bool.false_eq_true, if_false]
        rw [haSp]
        congr 1
        refine ih true (fun c hc => honly c (List.mem_cons_of_mem a hc))
          ((List.chain'_cons').1 hnd).2 (fun _ => ?_)
        intro c hc
        have hR := ((List.chain'_cons').1 hnd).1 c hc
        by_contra hcontra
        rw [Bool.not_eq_false] at hcontra
        have hcSp : c = ' ' :=
          honly c (List.mem_cons_of_mem a (List.mem_of_mem_head? hc)) hcontra
        exact hR ⟨haSp, hcSp⟩
      · have hfalse := hhead rfl a rfl
        rw [hfalse] at ha
        cases ha
    · rw [collapseWSAux, if_neg ha]
      congr 1
      exact ih false (fun c hc => honly c (List.mem_cons_of_mem a hc))
        ((List.chain'_cons').1 hnd).2 (fun h => by cases h)

theorem collapseWS_fix {l : List Char} (h : SanitizedChars l) :
    collapseWS l = l :=
  collapseWSAux_fix l false h.1 h.2.1 (fun hb => by cases hb)

theorem dropWhile_eq_self_of_headNotWS {l : List Char} (h : headNotWS l) :
    l.dropWhile isWS = l := by
  cases l with
  | nil => rfl
  | cons a rest =>
    have ha := h a rfl
    rw [List.dropWhile_cons_of_neg (by simp [ha])]

theorem trimWS_fix {l : List Char} (hh : headNotWS l) (hl : lastNotWS l) :
    trimWS l = l := by
  rw [trimWS, dropWhile_eq_self_of_headNotWS hh]
  have hrev : headNotWS l.reverse := by
    intro c hc
    rw [List.head?_reverse] at hc
    exact hl c hc
  rw [dropWhile_eq_self_of_headNotWS hrev, List.reverse_reverse]

theorem clean_fix {l : List Char} (h : SanitizedChars l) :
    trimWS (collapseWS l) = l := by
  rw [collapseWS_fix h, trimWS_fix h.2.2.1 h.2.2.2]

theorem sanitized_take_dots {l : List Char} (h : SanitizedChars l) (k : Nat) :
    SanitizedChars (l.take k ++ ['.', '.', '.']) := by
  obtain ⟨honly, hnd, hhead, -⟩ := h
  refine ⟨?_, ?_, ?_, ?_⟩
  · intro c hc hws
    rcases List.mem_append.1 hc with hc | hc
    · exact honly c (List.take_subset k l hc) hws
    · simp only [List.mem_cons, List.not_mem_nil, or_false] at hc
      rcases hc with rfl | rfl | rfl <;> exact absurd hws (by decide)
  · refine List.Chain'.append (List.Chain'.take hnd k) ?_ ?_
    · refine (List.chain'_cons').2 ⟨?_, (List.chain'_cons').2 ⟨?_, ?_⟩⟩
      · rintro y hy ⟨h1, -⟩
        cases h1
      · rintro y hy ⟨h1, -⟩
        cases h1
      · simp
    · intro x hx y hy
      simp only [List.head?_cons, Option.mem_def, Option.some.injEq] at hy
      rintro ⟨-, hy'⟩
      rw [← hy] at hy'
      cases hy'
  · intro c hc
    cases l with
    | nil =>
      simp only [List.take_nil, List.nil_append, List.head?_cons,
        Option.some.injEq] at hc
      subst hc
      rfl
    | cons a rest =>
      cases k with
      | zero =>
        simp only [List.take_zero, List.nil_append, List.head?_cons,
          Option.some.injEq] at hc
        subst hc
        rfl
      | succ k =>
        simp only [List.take_succ_cons, List.cons_append, List.head?_cons,
          Option.some.injEq] at hc
        subst hc
        exact hhead _ rfl
  · intro c hc
    rw [List.getLast?_append] at hc
    simp only [List.getLast?_cons_cons, List.getLast?_singleton,
      Option.or_some, Option.some.injEq] at hc
    subst hc
    rfl

theorem noDouble_of_no_space {l : List Char} (h : ∀ c ∈ l, c ≠ ' ') :
    noDouble l := by
  induction l with
  | nil => simp [noDouble]
  | cons a rest ih =>
    refine (List.chain'_cons').2 ⟨?_, ih (fun c hc => h c (List.mem_cons_of_mem a hc))⟩
    rintro y hy ⟨h1, -⟩
    exact h a (List.mem_cons_self a rest) h1

theorem sanitized_of_noWS {l : List Char} (h : ∀ c ∈ l, isWS c = false) :
    SanitizedChars l := by
  refine ⟨?_, ?_, ?_, ?_⟩
  · intro c hc hws
    rw [h c hc] at hws
    cases hws
  · refine noDouble_of_no_space (fun c hc hsp => ?_)
    have := h c hc
    rw [hsp] at this
    simp [isWS] at this
  · intro c hc
    exact h c (List.mem_of_mem_head? hc)
  · intro c hc
    exact h c (List.mem_of_getLast?_eq_some hc)

theorem sanitizeText_nil (m : Nat) : sanitizeText [] m = [] := rfl

theorem sanitizeText_of_long (text : List Char) (m : Nat) (ht : text ≠ [])
    (h : m < (trimWS (collapseWS text)).length) :
    sanitizeText text m =
      (trimWS (collapseWS text)).take (m - 3) ++ ['.', '.', '.'] := by
  unfold sanitizeText
  rw [if_neg ht, if_pos h]

theorem sanitizeText_of_short (text : List Char) (m : Nat) (ht : text ≠ [])
    (h : ¬ m < (trimWS (collapseWS text)).length) :
    sanitizeText text m = trimWS (collapseWS text) := by
  unfold sanitizeText
  rw [if_neg ht, if_neg h]

/-- Claim C7.  Sanitization idempotence: for every string and every cap,
`sanitizeText(sanitizeText(x, maxLength), maxLength) ==
sanitizeText(x, maxLength)`. -/
theorem sanitizeText_idempotent (text : List Char) (maxLength : Nat) :
    sanitizeText (sanitizeText text maxLength) maxLength =
      sanitizeText text maxLength := by
  by_cases ht : text = []
  · subst ht
    rw [sanitizeText_nil, sanitizeText_nil]
  · have hsan := sanitized_trim_collapse text
    by_cases hlen : maxLength < (trimWS (collapseWS text)).length
    · rw [sanitizeText_of_long text maxLength ht hlen]
      have hyS : SanitizedChars
          ((trimWS (collapseWS text)).take (maxLength - 3) ++ ['.', '.', '.']) :=
        sanitized_take_dots hsan _
      have hyne : (trimWS (collapseWS text)).take (maxLength - 3) ++ ['.', '.', '.'] ≠ [] := by
        simp
      have hyfix : trimWS (collapseWS
          ((trimWS (collapseWS text)).take (maxLength - 3) ++ ['.', '.', '.'])) =
          (trimWS (collapseWS text)).take (maxLength - 3) ++ ['.', '.', '.'] :=
        clean_fix hyS
      by_cases h3 : 3 ≤ maxLength
      · have hylen : ((trimWS (collapseWS text)).take (maxLength - 3)
            ++ ['.', '.', '.']).length = maxLength := by
          rw [List.length_append, List.length_take,
            min_eq_left (by omega : maxLength - 3 ≤ (trimWS (collapseWS text)).length)]
          simp
          omega
        have hcond : ¬ maxLength < (trimWS (collapseWS
            ((trimWS (collapseWS text)).take (maxLength - 3) ++ ['.', '.', '.']))).length := by
          rw [hyfix, hylen]
          omega
        rw [sanitizeText_of_short _ maxLength hyne hcond, hyfix]
      · have h0 : maxLength - 3 = 0 := by omega
        have hy3 : (trimWS (collapseWS text)).take (maxLength - 3) ++ ['.', '.', '.'] =
            ['.', '.', '.'] := by
          rw [h0, List.take_zero, List.nil_append]
        have hcond : maxLength < (trimWS (collapseWS
            ((trimWS (collapseWS text)).take (maxLength - 3) ++ ['.', '.', '.']))).length := by
          rw [hyfix, hy3]
          simp
          omega
        rw [sanitizeText_of_long _ maxLength hyne hcond, hyfix, hy3, h0,
          List.take_zero, List.nil_append]
    · rw [sanitizeText_of_short text maxLength ht hlen]
      by_cases hc : trimWS (collapseWS text) = []
      · rw [hc]
        rfl
      · have hcfix : trimWS (collapseWS (trimWS (collapseWS text))) =
            trimWS (collapseWS text) := clean_fix hsan
        have hcond : ¬ maxLength < (trimWS (collapseWS (trimWS (collapseWS text)))).length := by
          rw [hcfix]
          exact hlen
        rw [sanitizeText_of_short _ maxLength hc hcond, hcfix]

/-- Claim C6.  Truncation law for `sanitizeText` with a cap of at least 3
(the configured caps are 100 and 500): when the whitespace-collapsed,
trimmed input exceeds the cap, the output has length exactly the cap and
ends with the three-character ellipsis marker; otherwise the output is
exactly the collapsed, trimmed input. -/
theorem sanitizeText_truncation (text : List Char) (maxLength : Nat)
    (h3 : 3 ≤ maxLength) :
    (maxLength < (trimWS (collapseWS text)).length →
      (sanitizeText text maxLength).length = maxLength ∧
      ['.', '.', '.'] <:+ sanitizeText text maxLength) ∧
    ((trimWS (collapseWS text)).length ≤ maxLength →
      sanitizeText text maxLength = trimWS (collapseWS text)) := by
  constructor
  · intro hlt
    have ht : text ≠ [] := by
      intro h
      subst h
      have hnil : trimWS (collapseWS []) = [] := rfl
      rw [hnil] at hlt
      simp at hlt
    rw [sanitizeText_of_long text maxLength ht hlt]
    constructor
    · rw [List.length_append, List.length_take,
        min_eq_left (by omega : maxLength - 3 ≤ (trimWS (collapseWS text)).length)]
      simp
      omega
    · exact ⟨_, rfl⟩
  · intro hle
    by_cases ht : text = []
    · subst ht
      rfl
    · exact sanitizeText_of_short text maxLength ht (not_lt.mpr hle)

/-- Witness for C6 on the spec scenario: a 600-character non-whitespace
string with the 500-character context cap normalizes to exactly 500
characters ending in the ellipsis marker. -/
theorem sanitizeText_truncation_witness :
    3 ≤ 500 ∧
    (sanitizeText (List.replicate 600 'a') 500).length = 500 ∧
    ['.', '.', '.'] <:+ sanitizeText (List.replicate 600 'a') 500 := by
  have hfix : trimWS (collapseWS (List.replicate 600 'a')) = List.replicate 600 'a' :=
    clean_fix (sanitized_of_noWS (fun c hc => by
      rw [List.eq_of_mem_replicate hc]
      rfl))
  have h := sanitizeText_truncation (List.replicate 600 'a') 500 (by norm_num)
  have hlt : 500 < (trimWS (collapseWS (List.replicate 600 'a'))).length := by
    rw [hfix, List.length_replicate]
    norm_num
  exact ⟨by norm_num, (h.1 hlt).1, (h.1 hlt).2⟩
